/-
Verification of the Granola-to-Craft daily sync script
(src/granola_to_craft.py) against its natural-language specification.

Python strings are modelled as List Char (a Python str is a sequence of
Unicode code points).  Machinery:
  - pyStrip / pyLStrip / pyRStrip model str.strip() and friends;
  - collapseNewlines models re.sub(r'\n{3,}', '\n\n', s);
  - a tokenizer + tree builder models BeautifulSoup(html, 'html.parser')
    far enough for the claims under scrutiny (tag parsing, character
    entity decoding for the common named entities, stray angle brackets
    kept as text, unmatched end tags ignored, unclosed elements closed
    at end of input).
HTTP calls are modelled as oracle parameters, exceptions as Except.
-/
import Mathlib

namespace GranolaCraft

/-- Coerce a Lean string literal to the List Char model of Python str. -/
def str (s : String) : List Char := s.data

/-- Unicode whitespace as recognised by Python str.strip (the characters
for which str.isspace holds). -/
def isPySpace (c : Char) : Bool :=
  c = ' ' || c = '\t' || c = '\n' || c = '\x0b' || c = '\x0c' || c = '\r' ||
  c = '\x1c' || c = '\x1d' || c = '\x1e' || c = '\x1f' ||
  c = '\u0085' || c = '\u00A0' || c = '\u1680' ||
  (('\u2000' ≤ c) && (c ≤ '\u200A')) ||
  c = '\u2028' || c = '\u2029' || c = '\u202F' || c = '\u205F' || c = '\u3000'

/-- Python str.lstrip(): drop leading whitespace. -/
def pyLStrip (l : List Char) : List Char := l.dropWhile isPySpace

/-- Python str.rstrip(): drop trailing whitespace. -/
def pyRStrip (l : List Char) : List Char := (l.reverse.dropWhile isPySpace).reverse

/-- Python str.strip(): drop leading and trailing whitespace. -/
def pyStrip (l : List Char) : List Char := pyRStrip (pyLStrip l)

/-- Emit a pending run of newlines, collapsing runs of three or more to
exactly two; helper for collapseNewlines. -/
def emitNL (pending : Nat) : List Char :=
  if pending ≥ 3 then ['\n', '\n'] else List.replicate pending '\n'

/-- One-pass worker for collapseNewlines; pending counts the newlines
seen immediately before the current position. -/
def collapseAux : Nat → List Char → List Char
  | pending, [] => emitNL pending
  | pending, c :: rest =>
    if c = '\n' then collapseAux (pending + 1) rest
    else emitNL pending ++ c :: collapseAux 0 rest

/-- Model of re.sub(r'\n\x7b3,\x7d', '\n\n', s): every maximal run of three
or more newlines becomes exactly two. -/
def collapseNewlines (l : List Char) : List Char := collapseAux 0 l

/-- Whether the list begins with three newline characters. -/
def startsNNN : List Char → Bool
  | a :: b :: c :: _ => a = '\n' && b = '\n' && c = '\n'
  | _ => false

/-- Whether the list contains three consecutive newline characters. -/
def hasTripleNL : List Char → Bool
  | [] => false
  | c :: rest => startsNNN (c :: rest) || hasTripleNL rest

example : collapseNewlines (str "a\n\n\n\nb") = str "a\n\nb" := by decide
example : collapseNewlines (str "a\n\nb") = str "a\n\nb" := by decide
example : pyStrip (str "  hi \n") = str "hi" := by decide
example : hasTripleNL (str "a\n\n\nb") = true := by decide
example : hasTripleNL (str "a\n\nb") = false := by decide

/-! HTML model: BeautifulSoup(html_content, 'html.parser') as used by
html_to_markdown.  A tokenizer turns the input into text runs (with the
common named character entities decoded, as html.parser does with
convert_charrefs=True), start tags with attributes, and end tags; a
stack machine then builds the element tree, ignoring unmatched end tags
and closing still-open elements at end of input. -/

/-- Token stream produced by the HTML tokenizer. -/
inductive Tok where
  | text (s : List Char)
  | openTag (name : List Char) (attrs : List (List Char × List Char))
  | closeTag (name : List Char)
deriving DecidableEq

/-- Named character entities decoded by the tokenizer (entity body
including the semicolon, paired with its decoded text). -/
def entityTable : List (List Char × List Char) :=
  [(str "amp;", str "&"), (str "lt;", str "<"), (str "gt;", str ">"),
   (str "quot;", str "\""), (str "apos;", str "'")]

/-- Try to decode a character entity at the point just after an
ampersand; returns the decoded text and the number of characters
consumed. -/
def parseEntity (rest : List Char) : Option (List Char × Nat) :=
  match entityTable.find? (fun e => e.1.isPrefixOf rest) with
  | some e => some (e.2, e.1.length)
  | none => none

/-- ASCII whitespace separating attributes inside a tag. -/
def isHtmlSpace (c : Char) : Bool :=
  c = ' ' || c = '\t' || c = '\n' || c = '\r' || c = '\x0c'

/-- Characters allowed in a tag name after its first letter. -/
def isTagNameChar (c : Char) : Bool :=
  !(c = '\t' || c = '\n' || c = '\r' || c = '\x0c' || c = ' ' || c = '/' ||
    c = '>' || c = '\x00')

/-- Characters allowed in an attribute name. -/
def isAttrNameChar (c : Char) : Bool :=
  !(isHtmlSpace c || c = '=' || c = '/' || c = '>')

/-- Characters allowed in an unquoted attribute value. -/
def isUnquotedValChar (c : Char) : Bool :=
  !(isHtmlSpace c || c = '>')

/-- Parse the attribute section of a start tag up to and including the
closing angle bracket; returns the attribute list (names lowercased,
valueless attributes given the empty value as BeautifulSoup does), a
self-closing flag, and the number of characters consumed.  Fails when
no closing angle bracket is found. -/
def parseAttrs : Nat → List Char → Option (List (List Char × List Char) × Bool × Nat)
  | 0, _ => none
  | _ + 1, [] => none
  | fuel + 1, c :: rest =>
    if isHtmlSpace c then
      (parseAttrs fuel rest).map (fun r => (r.1, r.2.1, r.2.2 + 1))
    else if c = '>' then
      some ([], false, 1)
    else if c = '/' then
      match rest with
      | '>' :: _ => some ([], true, 2)
      | _ => (parseAttrs fuel rest).map (fun r => (r.1, r.2.1, r.2.2 + 1))
    else
      let aname := (c :: rest.takeWhile isAttrNameChar).map Char.toLower
      let consumedName := 1 + (rest.takeWhile isAttrNameChar).length
      let r2 := rest.dropWhile isAttrNameChar
      match r2 with
      | '=' :: '"' :: r4 =>
        let v := r4.takeWhile (fun d => !(d = '"'))
        match r4.dropWhile (fun d => !(d = '"')) with
        | '"' :: r5 =>
          (parseAttrs fuel r5).map (fun r =>
            ((aname, v) :: r.1, r.2.1, r.2.2 + consumedName + 2 + v.length + 1))
        | _ => none
      | '=' :: '\'' :: r4 =>
        let v := r4.takeWhile (fun d => !(d = '\''))
        match r4.dropWhile (fun d => !(d = '\'')) with
        | '\'' :: r5 =>
          (parseAttrs fuel r5).map (fun r =>
            ((aname, v) :: r.1, r.2.1, r.2.2 + consumedName + 2 + v.length + 1))
        | _ => none
      | '=' :: r3 =>
        let v := r3.takeWhile isUnquotedValChar
        (parseAttrs fuel (r3.dropWhile isUnquotedValChar)).map (fun r =>
          ((aname, v) :: r.1, r.2.1, r.2.2 + consumedName + 1 + v.length))
      | _ =>
        (parseAttrs fuel r2).map (fun r =>
          ((aname, str "") :: r.1, r.2.1, r.2.2 + consumedName))

/-- Index of the first occurrence of pat as a contiguous sublist. -/
def findSub (pat : List Char) : List Char → Option Nat
  | [] => if pat.isPrefixOf [] then some 0 else none
  | c :: r =>
    if pat.isPrefixOf (c :: r) then some 0 else (findSub pat r).map (· + 1)

/-- Parse one markup construct at the point just after a left angle
bracket: an end tag, a comment, a declaration, a processing
instruction, or a start tag (possibly self-closing).  Returns the
emitted tokens and the number of characters consumed, or none when the
angle bracket does not open a parsable construct and is to be kept as
literal text. -/
def parseTag (rest : List Char) : Option (List Tok × Nat) :=
  match rest with
  | [] => none
  | '/' :: r2 =>
    match r2 with
    | c :: _ =>
      if c.isAlpha then
        let name := (c :: (r2.drop 1).takeWhile isTagNameChar).map Char.toLower
        match r2.findIdx? (fun d => d = '>') with
        | some i => some ([Tok.closeTag name], 1 + i + 1)
        | none => none
      else none
    | [] => none
  | '!' :: '-' :: '-' :: body =>
    match findSub (str "-->") body with
    | some i => some ([], 3 + i + 3)
    | none => none
  | '!' :: r2 =>
    match r2.findIdx? (fun d => d = '>') with
    | some i => some ([], 1 + i + 1)
    | none => none
  | '?' :: r2 =>
    match r2.findIdx? (fun d => d = '>') with
    | some i => some ([], 1 + i + 1)
    | none => none
  | c :: r2 =>
    if c.isAlpha then
      let name := (c :: r2.takeWhile isTagNameChar).map Char.toLower
      let afterName := r2.dropWhile isTagNameChar
      match parseAttrs (afterName.length + 1) afterName with
      | some (attrs, selfClosing, n) =>
        some (Tok.openTag name attrs ::
                (if selfClosing then [Tok.closeTag name] else []),
              1 + (r2.takeWhile isTagNameChar).length + n)
      | none => none
    else none

/-- Fuelled tokenizer worker; fuel at least the input length plus one
guarantees the input is consumed completely. -/
def tokenizeGo : Nat → List Char → List Tok
  | 0, _ => []
  | _ + 1, [] => []
  | fuel + 1, c :: rest =>
    if c = '<' then
      match parseTag rest with
      | some (toks, n) => toks ++ tokenizeGo fuel (rest.drop n)
      | none => Tok.text ['<'] :: tokenizeGo fuel rest
    else if c = '&' then
      match parseEntity rest with
      | some (t, n) => Tok.text t :: tokenizeGo fuel (rest.drop n)
      | none => Tok.text ['&'] :: tokenizeGo fuel rest
    else
      Tok.text [c] :: tokenizeGo fuel rest

/-- Tokenize an HTML input completely. -/
def tokenize (s : List Char) : List Tok := tokenizeGo (s.length + 1) s

mutual
/-- Parsed HTML node: a text run or an element with attributes and
children. -/
inductive Html where
  | text (s : List Char)
  | elem (tag : List Char) (attrs : List (List Char × List Char)) (children : HtmlList)
/-- Children of an element, as a bespoke list so that all recursion
over the tree is structural. -/
inductive HtmlList where
  | nil
  | cons (head : Html) (tail : HtmlList)
end

/-- Convert an ordinary list of nodes into an HtmlList. -/
def HtmlList.ofList : List Html → HtmlList
  | [] => HtmlList.nil
  | h :: t => HtmlList.cons h (HtmlList.ofList t)

mutual
/-- Concatenated text of a node, as BeautifulSoup get_text. -/
def getText : Html → List Char
  | Html.text s => s
  | Html.elem _ _ cs => getTextL cs
/-- Concatenated text of a list of nodes. -/
def getTextL : HtmlList → List Char
  | HtmlList.nil => []
  | HtmlList.cons h t => getText h ++ getTextL t
end

mutual
/-- One find_all/replace_with pass of html_to_markdown: every element
with the given tag is replaced, outermost first, by the text the render
function produces from its attributes and inner text; as in the source,
descendants of a replaced element are detached and not visited. -/
def replaceNode (tag : List Char)
    (render : List (List Char × List Char) → List Char → List Char) :
    Html → Html
  | Html.text s => Html.text s
  | Html.elem name attrs cs =>
    if name = tag then Html.text (render attrs (getTextL cs))
    else Html.elem name attrs (replaceL tag render cs)
/-- The replacement pass over a list of sibling nodes. -/
def replaceL (tag : List Char)
    (render : List (List Char × List Char) → List Char → List Char) :
    HtmlList → HtmlList
  | HtmlList.nil => HtmlList.nil
  | HtmlList.cons h t => HtmlList.cons (replaceNode tag render h) (replaceL tag render t)
end

/-- Open element still on the tree-builder stack. -/
structure BFrame where
  tag : List Char
  attrs : List (List Char × List Char)
  parentAcc : List Html

/-- Close the top frame: wrap the accumulated (reversed) children into
an element and return to the parent accumulator. -/
def closeFrame (acc : List Html) (f : BFrame) : List Html :=
  Html.elem f.tag f.attrs (HtmlList.ofList acc.reverse) :: f.parentAcc

/-- Pop frames until the one with the given tag has been closed
(BeautifulSoup closes intervening elements implicitly). -/
def popTo (t : List Char) : List Html → List BFrame → List Html × List BFrame
  | acc, [] => (acc, [])
  | acc, f :: stk =>
    if f.tag = t then (closeFrame acc f, stk)
    else popTo t (closeFrame acc f) stk

/-- Close every still-open frame at end of input. -/
def closeAll : List Html → List BFrame → List Html
  | acc, [] => acc
  | acc, f :: stk => closeAll (closeFrame acc f) stk

/-- Stack machine turning the token stream into a forest; acc holds the
current element's children in reverse, unmatched end tags are
ignored. -/
def bfGo : List Tok → List Html → List BFrame → List Html
  | [], acc, stk => (closeAll acc stk).reverse
  | Tok.text s :: rest, acc, stk => bfGo rest (Html.text s :: acc) stk
  | Tok.openTag n a :: rest, acc, stk => bfGo rest [] (⟨n, a, acc⟩ :: stk)
  | Tok.closeTag n :: rest, acc, stk =>
    if (stk.find? (fun f => f.tag = n)).isSome then
      let p := popTo n acc stk
      bfGo rest p.1 p.2
    else bfGo rest acc stk

/-- Parse an HTML input into a forest of nodes. -/
def buildForest (toks : List Tok) : List Html := bfGo toks [] []

/-- Replacement text for a heading-3 element. -/
def renderH3 (_ : List (List Char × List Char)) (txt : List Char) : List Char :=
  str "### " ++ txt ++ str "\n"

/-- Replacement text for a list item element. -/
def renderLi (_ : List (List Char × List Char)) (txt : List Char) : List Char :=
  str "- " ++ txt ++ str "\n"

/-- Replacement text for a paragraph element. -/
def renderP (_ : List (List Char × List Char)) (txt : List Char) : List Char :=
  txt ++ str "\n\n"

/-- Replacement text for an anchor element; a missing href attribute
renders as the text None, as the Python f-string does with a.get. -/
def renderA (attrs : List (List Char × List Char)) (txt : List Char) : List Char :=
  let href := match attrs.find? (fun kv => kv.1 = str "href") with
    | some kv => kv.2
    | none => str "None"
  str "[" ++ txt ++ str "](" ++ href ++ str ")"

/-- Model of html_to_markdown (src/granola_to_craft.py lines 69-84):
empty input returns empty; otherwise parse, run the four
replace_with passes in order (h3, li, p, a), take the flattened text,
collapse runs of three or more newlines to two, and strip. -/
def html_to_markdown (html_content : List Char) : List Char :=
  if html_content = [] then []
  else
    let forest := buildForest (tokenize html_content)
    let f1 := forest.map (replaceNode (str "h3") renderH3)
    let f2 := f1.map (replaceNode (str "li") renderLi)
    let f3 := f2.map (replaceNode (str "p") renderP)
    let f4 := f3.map (replaceNode (str "a") renderA)
    let text := (f4.map getText).flatten
    pyStrip (collapseNewlines text)

example : html_to_markdown (str "") = str "" := by decide
example : html_to_markdown (str "<h3>Title</h3><p>Body</p>") = str "### Title\nBody" := by decide
example : html_to_markdown (str "<a href='http://x.com'>link</a>") = str "[link](http://x.com)" := by decide
example : html_to_markdown (str "&lt;") = str "<" := by decide
example : html_to_markdown (str "&amp;amp;") = str "&amp;" := by decide
example : html_to_markdown (str "&amp;") = str "&" := by decide
example : html_to_markdown (str "<ul><li>a</li><li>b</li></ul>") = str "- a\n- b" := by decide

/-! Data model of the JSON payloads the script consumes.  Optional
fields are Option values: a missing key read with dict.get maps to
none.  Errors raised by Python code are modelled with Except. -/

/-- A meeting document as returned by the notes service; the id key is
accessed with brackets in the source and is therefore required. -/
structure Meeting where
  id : List Char
  title : Option (List Char)
  created_at : Option (List Char)
deriving DecidableEq

/-- An AI panel attached to a meeting. -/
structure Panel where
  title : Option (List Char)
  original_content : Option (List Char)
deriving DecidableEq

/-- One transcript segment. -/
structure Segment where
  text : Option (List Char)
  source : Option (List Char)
deriving DecidableEq

/-- A calendar date as produced by datetime.date. -/
structure PyDate where
  year : Nat
  month : Nat
  day : Nat
deriving DecidableEq

/-- Zero-padded decimal rendering, as the format specifiers 04d and 02d
used by date.isoformat. -/
def padZeros (w : Nat) (n : Nat) : List Char :=
  let ds := Nat.toDigits 10 n
  List.replicate (w - ds.length) '0' ++ ds

/-- Python date.isoformat(): the YYYY-MM-DD rendering of the date. -/
def PyDate.isoformat (d : PyDate) : List Char :=
  padZeros 4 d.year ++ str "-" ++ padZeros 2 d.month ++ str "-" ++ padZeros 2 d.day

example : PyDate.isoformat ⟨2025, 10, 11⟩ = str "2025-10-11" := by decide
example : PyDate.isoformat ⟨2025, 1, 2⟩ = str "2025-01-02" := by decide

/-- A markdown block as sent to the destination document API: the
literal dict shapes built in main. -/
inductive Block where
  | mk (type : List Char) (textStyle : Option (List Char))
       (markdown : List Char) (content : Option (List Block))

/-- Exceptions raised by Python code in the model. -/
inductive PyErr where
  | attributeError
deriving DecidableEq

/-- A failed HTTP round trip (non-2xx status or transport error). -/
inductive HttpErr where
  | httpError
deriving DecidableEq

/-- Model of get_headers (lines 22-34).  The cookie, device id and
workspace id come from the environment and may be absent; calling
startswith on an absent (None) cookie raises AttributeError, which is
the only way this function can fail.  Header values may be None
because the environment variables may be unset. -/
def get_headers (cookie deviceId workspaceId : Option (List Char))
    (version : List Char) :
    Except PyErr (List (List Char × Option (List Char))) :=
  match cookie with
  | none => Except.error PyErr.attributeError
  | some ck =>
    Except.ok
      ([(str "Accept", some (str "application/json")),
        (str "Content-Type", some (str "application/json")),
        (str "X-Granola-Device-Id", deviceId),
        (str "X-Granola-Workspace-Id", workspaceId),
        (str "X-Client-Version", some version)] ++
       (if (str "Bearer ").isPrefixOf ck then [(str "Authorization", some ck)]
        else [(str "Cookie", some ck)]))

/-- Model of get_granola_documents (lines 36-45): build headers and
fetch inside a try block; any exception (including the AttributeError
from get_headers on a missing cookie, and any HTTP failure) is caught,
logged, and turned into the empty list.  The network round trip is the
oracle argument. -/
def get_granola_documents (cookie deviceId workspaceId : Option (List Char))
    (version : List Char)
    (http : List (List Char × Option (List Char)) → Except HttpErr (List Meeting)) :
    List Meeting :=
  match get_headers cookie deviceId workspaceId version with
  | Except.error _ => []
  | Except.ok h =>
    match http h with
    | Except.ok docs => docs
    | Except.error _ => []

/-- Model of the summary-panel selection loop in main (lines 160-164):
the original_content of the first panel titled Summary, the empty
string when there is none (or when that panel has no content key). -/
def summary_html : List Panel → List Char
  | [] => []
  | p :: rest =>
    if p.title = some (str "Summary") then p.original_content.getD []
    else summary_html rest

/-- Model of line 165: convert the summary when it is a non-empty
string, otherwise the placeholder text. -/
def content_md (panels : List Panel) : List Char :=
  if summary_html panels = [] then str "No summary available."
  else html_to_markdown (summary_html panels)

/-- Contribution of one segment to the formatted transcript (lines
92-97): trimmed text prefixed by the microphone or laptop glyph, plus a
blank line; whitespace-only segments contribute nothing. -/
def segPart (seg : Segment) : List Char :=
  let text := pyStrip (seg.text.getD [])
  if text = [] then []
  else
    (if seg.source.getD (str "unknown") = str "microphone" then str "🎙️ "
     else str "💻 ") ++ text ++ str "\n\n"

/-- The accumulation loop of format_transcript: formatted starts empty
and each segment appends its contribution. -/
def formatLoop (acc : List Char) : List Segment → List Char
  | [] => acc
  | seg :: rest => formatLoop (acc ++ segPart seg) rest

/-- Model of format_transcript (lines 86-98); the argument is an Option
because the segments value may be absent (None), which like the empty
list is falsy. -/
def format_transcript : Option (List Segment) → List Char
  | none => str "No transcript available."
  | some segs =>
    if segs = [] then str "No transcript available."
    else pyStrip (formatLoop [] segs)

example : format_transcript (some [⟨some (str "hi"), some (str "microphone")⟩]) = str "🎙️ hi" := by decide
example : format_transcript (some []) = str "No transcript available." := by decide
example : format_transcript (some [⟨some (str "  "), some (str "microphone")⟩]) = str "" := by decide

/-- Model of filter_meetings_by_date (lines 100-103): keep the
documents whose created_at string starts with the iso rendering of the
target date. -/
def filter_meetings_by_date (documents : List Meeting) (target_date : PyDate) :
    List Meeting :=
  let date_str := target_date.isoformat
  documents.filter (fun d => date_str.isPrefixOf (d.created_at.getD []))

/-- Model of send_blocks_to_craft (lines 105-129).  The first component
is the Python return value: None for an empty block list (the bare
return), True on success, False on failure.  The second component
records whether an HTTP request was performed. -/
def send_blocks_to_craft (blocks : List Block) (http : Except HttpErr Unit) :
    Option Bool × Bool :=
  if blocks.isEmpty then (none, false)
  else
    match http with
    | Except.ok _ => (some true, true)
    | Except.error _ => (some false, true)

/-- The truncation suffix appended to overlong transcripts. -/
def truncationSuffix : List Char := str "\n\n... (transcript too long, truncated)"

/-- The transcript text actually placed in the nested block (line 189):
kept verbatim when its length is below 50000, otherwise the first
50000 characters plus the truncation suffix. -/
def truncateTranscript (transcript_text : List Char) : List Char :=
  if transcript_text.length < 50000 then transcript_text
  else transcript_text.take 50000 ++ truncationSuffix

/-- The per-meeting block group built in main (lines 155 and 172-197):
title resolution (line 155, where an absent or empty title falls back
to Untitled Meeting via the or operator), then the literal four-block
list. -/
def buildMeetingBlocks (title : Option (List Char))
    (content_md_arg transcript_text : List Char) : List Block :=
  let t := match title with
    | none => str "Untitled Meeting"
    | some s => if s = [] then str "Untitled Meeting" else s
  [Block.mk (str "text") (some (str "h2")) t none,
   Block.mk (str "text") none content_md_arg none,
   Block.mk (str "page") (some (str "card")) (str "📄 Full Transcript")
     (some [Block.mk (str "text") none
       (if transcript_text.length < 50000 then transcript_text
        else transcript_text.take 50000 ++ truncationSuffix) none]),
   Block.mk (str "text") none (str "---") none]

/-- The header block sent once per run (lines 148-152). -/
def headerBlock (y : PyDate) : Block :=
  Block.mk (str "text") (some (str "h1"))
    (str "☕️ Granola Meetings (" ++ y.isoformat ++ str ")") none

/-- The four blocks main builds for one meeting, with the summary and
transcript obtained through the fetch oracles. -/
def meetingBlocksOf (getPanels : List Char → List Panel)
    (getTranscript : List Char → Option (List Segment)) (doc : Meeting) :
    List Block :=
  buildMeetingBlocks doc.title (content_md (getPanels doc.id))
    (format_transcript (getTranscript doc.id))

/-- One call to send_blocks_to_craft recorded by the orchestration
model. -/
structure Submission where
  blocks : List Block
  dateStr : List Char

/-- The per-meeting submission loop of main (lines 154-203): one
submission per selected meeting, in order, each paired with the outcome
the destination reports for it; outcomes are consulted only for
logging, so the loop never stops early. -/
def mainRunGo (gp : List Char → List Panel)
    (gt : List Char → Option (List Segment)) (y : PyDate)
    (outcome : Nat → Bool) : List Meeting → Nat → List (Submission × Bool)
  | [], _ => []
  | doc :: rest, i =>
    (⟨meetingBlocksOf gp gt doc, y.isoformat⟩, outcome i) ::
      mainRunGo gp gt y outcome rest (i + 1)

/-- Model of main (lines 131-203) restricted to its observable calls to
send_blocks_to_craft: no submission at all when no meeting matches the
target date, otherwise the header as its own submission followed by one
submission per meeting; outcome i is the destination's response to the
i-th submission. -/
def mainRun (docs : List Meeting) (gp : List Char → List Panel)
    (gt : List Char → Option (List Segment)) (y : PyDate)
    (outcome : Nat → Bool) : List (Submission × Bool) :=
  let target := filter_meetings_by_date docs y
  if target = [] then []
  else
    (⟨[headerBlock y], y.isoformat⟩, outcome 0) ::
      mainRunGo gp gt y outcome target 1

/-! Toolkit about runs of newlines and the collapse pass. -/

theorem startsNNN_append (l r : List Char) (h : startsNNN l = true) :
    startsNNN (l ++ r) = true := by
  match l with
  | [] => simp [startsNNN] at h
  | [a] => simp [startsNNN] at h
  | [a, b] => simp [startsNNN] at h
  | a :: b :: c :: t => simpa [startsNNN] using h

theorem hasTripleNL_cons (c : Char) (l : List Char) :
    hasTripleNL (c :: l) = (startsNNN (c :: l) || hasTripleNL l) := rfl

theorem hasTripleNL_iff_suffix (l : List Char) :
    hasTripleNL l = true ↔ ∃ t, t <:+ l ∧ startsNNN t = true := by
  induction l with
  | nil =>
    simp only [hasTripleNL]
    constructor
    · intro h; exact absurd h (by simp)
    · rintro ⟨t, ht, hs⟩
      rw [List.suffix_nil] at ht
      subst ht
      simp [startsNNN] at hs
  | cons c l ih =>
    rw [hasTripleNL_cons]
    constructor
    · intro h
      rcases Bool.or_eq_true_iff.mp h with h | h
      · exact ⟨c :: l, List.suffix_refl _, h⟩
      · obtain ⟨t, ht, hs⟩ := ih.mp h
        exact ⟨t, ht.trans (List.suffix_cons c l), hs⟩
    · rintro ⟨t, ht, hs⟩
      rcases List.suffix_cons_iff.mp ht with h | h
      · subst h; simp [hs]
      · exact Bool.or_eq_true_iff.mpr (Or.inr (ih.mpr ⟨t, h, hs⟩))

theorem hasTripleNL_append_left (a b : List Char) (h : hasTripleNL a = true) :
    hasTripleNL (a ++ b) = true := by
  obtain ⟨t, ⟨u, hu⟩, hs⟩ := (hasTripleNL_iff_suffix a).mp h
  refine (hasTripleNL_iff_suffix (a ++ b)).mpr ⟨t ++ b, ⟨u, ?_⟩, startsNNN_append _ _ hs⟩
  rw [← hu, List.append_assoc]

theorem hasTripleNL_append_right (a b : List Char) (h : hasTripleNL b = true) :
    hasTripleNL (a ++ b) = true := by
  obtain ⟨t, ⟨u, hu⟩, hs⟩ := (hasTripleNL_iff_suffix b).mp h
  refine (hasTripleNL_iff_suffix (a ++ b)).mpr ⟨t, ⟨a ++ u, ?_⟩, hs⟩
  rw [List.append_assoc, hu]

theorem startsNNN_cons_break (x : Char) (xs : List Char) (c : Char) (ys : List Char)
    (hc : c ≠ '\n') (h : startsNNN (x :: xs) = false) :
    startsNNN (x :: (xs ++ c :: ys)) = false := by
  match xs with
  | [] => cases ys <;> simp [startsNNN, hc]
  | [b] => simp [startsNNN, hc]
  | b :: d :: t => simpa [startsNNN] using h

theorem hasTripleNL_append_break (xs : List Char) (c : Char) (ys : List Char)
    (hc : c ≠ '\n') (h1 : hasTripleNL xs = false) (h2 : hasTripleNL ys = false) :
    hasTripleNL (xs ++ c :: ys) = false := by
  induction xs with
  | nil =>
    rw [List.nil_append, hasTripleNL_cons, h2]
    match ys with
    | [] => simp [startsNNN]
    | [b] => simp [startsNNN, hc]
    | b :: d :: t => simp [startsNNN, hc]
  | cons x xs ih =>
    rw [hasTripleNL_cons] at h1
    rcases Bool.or_eq_false_iff.mp h1 with ⟨hs, ht⟩
    rw [List.cons_append, hasTripleNL_cons, ih ht,
      startsNNN_cons_break x xs c ys hc hs, Bool.or_self]

theorem hasTripleNL_emitNL (p : Nat) : hasTripleNL (emitNL p) = false := by
  unfold emitNL
  split
  · decide
  · next h =>
    have hp : p < 3 := by omega
    interval_cases p <;> decide

theorem hasTripleNL_collapseAux (l : List Char) :
    ∀ p, hasTripleNL (collapseAux p l) = false := by
  induction l with
  | nil => intro p; simpa [collapseAux] using hasTripleNL_emitNL p
  | cons c l ih =>
    intro p
    unfold collapseAux
    split
    · next h => subst h; exact ih (p + 1)
    · next h => exact hasTripleNL_append_break _ _ _ h (hasTripleNL_emitNL p) (ih 0)

theorem hasTripleNL_collapseNewlines (l : List Char) :
    hasTripleNL (collapseNewlines l) = false := hasTripleNL_collapseAux l 0

theorem hasTripleNL_pyLStrip (l : List Char) (h : hasTripleNL l = false) :
    hasTripleNL (pyLStrip l) = false := by
  by_contra hc
  rw [Bool.not_eq_false] at hc
  have := hasTripleNL_append_right (l.takeWhile isPySpace) _ hc
  unfold pyLStrip at this
  rw [List.takeWhile_append_dropWhile] at this
  rw [this] at h
  exact absurd h (by simp)

theorem pyRStrip_append_eq (l : List Char) :
    pyRStrip l ++ (l.reverse.takeWhile isPySpace).reverse = l := by
  unfold pyRStrip
  rw [← List.reverse_append, List.takeWhile_append_dropWhile, List.reverse_reverse]

theorem hasTripleNL_pyRStrip (l : List Char) (h : hasTripleNL l = false) :
    hasTripleNL (pyRStrip l) = false := by
  by_contra hc
  rw [Bool.not_eq_false] at hc
  have := hasTripleNL_append_left _ (l.reverse.takeWhile isPySpace).reverse hc
  rw [pyRStrip_append_eq] at this
  rw [this] at h
  exact absurd h (by simp)

theorem hasTripleNL_pyStrip (l : List Char) (h : hasTripleNL l = false) :
    hasTripleNL (pyStrip l) = false :=
  hasTripleNL_pyRStrip _ (hasTripleNL_pyLStrip _ h)

theorem startsNNN_replicate_three (p : Nat) (l : List Char) (hp : 3 ≤ p) :
    startsNNN (List.replicate p '\n' ++ l) = true := by
  obtain ⟨q, rfl⟩ : ∃ q, p = 3 + q := ⟨p - 3, by omega⟩
  simp [List.replicate_add, startsNNN, List.replicate_succ]

theorem replicate_bound_of_no_triple (p : Nat) (l : List Char)
    (h : hasTripleNL (List.replicate p '\n' ++ l) = false) : p < 3 := by
  by_contra hp
  have h3 : 3 ≤ p := by omega
  have : hasTripleNL (List.replicate p '\n' ++ l) = true :=
    (hasTripleNL_iff_suffix _).mpr
      ⟨_, List.suffix_refl _, startsNNN_replicate_three p l h3⟩
  rw [this] at h
  exact absurd h (by simp)

theorem emitNL_small (p : Nat) (hp : p < 3) : emitNL p = List.replicate p '\n' := by
  unfold emitNL
  rw [if_neg (by omega)]

theorem collapseAux_no_triple_id (l : List Char) :
    ∀ p, hasTripleNL (List.replicate p '\n' ++ l) = false →
      collapseAux p l = List.replicate p '\n' ++ l := by
  induction l with
  | nil =>
    intro p h
    have hp := replicate_bound_of_no_triple p [] h
    simp [collapseAux, emitNL_small p hp]
  | cons c l ih =>
    intro p h
    unfold collapseAux
    split
    · next hcn =>
      subst hcn
      have h2 : List.replicate p '\n' ++ '\n' :: l = List.replicate (p + 1) '\n' ++ l := by
        rw [List.replicate_succ', List.append_cons]
      rw [h2] at h
      rw [ih (p + 1) h, h2]
    · next hcn =>
      have hp : p < 3 := replicate_bound_of_no_triple p (c :: l) h
      have hl : hasTripleNL l = false := by
        by_contra hc2
        rw [Bool.not_eq_false] at hc2
        have := hasTripleNL_append_right (List.replicate p '\n' ++ [c]) l hc2
        rw [List.append_assoc] at this
        simp only [List.singleton_append] at this
        rw [this] at h
        exact absurd h (by simp)
      rw [emitNL_small p hp, ih 0 (by simpa using hl)]
      simp

theorem collapseNewlines_no_triple_id (l : List Char) (h : hasTripleNL l = false) :
    collapseNewlines l = l := by
  have := collapseAux_no_triple_id l 0 (by simpa using h)
  simpa [collapseNewlines] using this

/-! Strip idempotence toolkit. -/

/-- A list that is empty or starts with a non-whitespace character. -/
def headOk (l : List Char) : Prop :=
  l = [] ∨ ∃ c r, l = c :: r ∧ isPySpace c = false

theorem pyLStrip_headOk (l : List Char) : headOk (pyLStrip l) := by
  induction l with
  | nil => exact Or.inl rfl
  | cons c l ih =>
    unfold pyLStrip at *
    rw [List.dropWhile_cons]
    split
    · exact ih
    · next h => exact Or.inr ⟨c, l, rfl, by simpa using h⟩

theorem pyLStrip_eq_self (l : List Char) (h : headOk l) : pyLStrip l = l := by
  rcases h with h | ⟨c, r, rfl, hc⟩
  · subst h; rfl
  · unfold pyLStrip
    rw [List.dropWhile_cons, if_neg (by simp [hc])]

theorem headOk_of_append (z q w : List Char) (hw : headOk w) (he : z ++ q = w) :
    headOk z := by
  rcases z with _ | ⟨c, r⟩
  · exact Or.inl rfl
  · rcases hw with hw | ⟨d, s, hds, hd⟩
    · subst hw
      exact absurd he (by simp)
    · rw [← he] at hds
      simp only [List.cons_append, List.cons.injEq] at hds
      exact Or.inr ⟨c, r, rfl, hds.1 ▸ hd⟩

theorem dropWhileSpace_idem (l : List Char) :
    List.dropWhile isPySpace (List.dropWhile isPySpace l) = List.dropWhile isPySpace l := by
  have := pyLStrip_headOk l
  exact pyLStrip_eq_self _ this

theorem pyRStrip_idem (l : List Char) : pyRStrip (pyRStrip l) = pyRStrip l := by
  unfold pyRStrip
  rw [List.reverse_reverse, dropWhileSpace_idem]

theorem pyStrip_idem (l : List Char) : pyStrip (pyStrip l) = pyStrip l := by
  unfold pyStrip
  have h1 : pyLStrip (pyRStrip (pyLStrip l)) = pyRStrip (pyLStrip l) := by
    apply pyLStrip_eq_self
    exact headOk_of_append _ _ _ (pyLStrip_headOk l) (pyRStrip_append_eq (pyLStrip l))
  rw [h1, pyRStrip_idem]

/-! Membership toolkit: characters of collapse and strip results come
from the input (or are newlines). -/

theorem mem_emitNL (c : Char) (p : Nat) (h : c ∈ emitNL p) : c = '\n' := by
  unfold emitNL at h
  split at h
  · simpa using h
  · exact List.eq_of_mem_replicate h

theorem mem_collapseAux (c : Char) (l : List Char) :
    ∀ p, c ∈ collapseAux p l → c = '\n' ∨ c ∈ l := by
  induction l with
  | nil =>
    intro p h
    simp only [collapseAux] at h
    exact Or.inl (mem_emitNL c p h)
  | cons d l ih =>
    intro p h
    unfold collapseAux at h
    split at h
    · next hd =>
      rcases ih (p + 1) h with h | h
      · exact Or.inl h
      · exact Or.inr (List.mem_cons_of_mem d h)
    · next hd =>
      rcases List.mem_append.mp h with h | h
      · exact Or.inl (mem_emitNL c p h)
      · rcases List.mem_cons.mp h with h | h
        · exact Or.inr (h ▸ List.mem_cons_self d l)
        · rcases ih 0 h with h | h
          · exact Or.inl h
          · exact Or.inr (List.mem_cons_of_mem d h)

theorem mem_collapseNewlines (c : Char) (l : List Char)
    (h : c ∈ collapseNewlines l) : c = '\n' ∨ c ∈ l :=
  mem_collapseAux c l 0 h

theorem mem_pyLStrip (c : Char) (l : List Char) (h : c ∈ pyLStrip l) : c ∈ l := by
  have : c ∈ l.takeWhile isPySpace ++ l.dropWhile isPySpace :=
    List.mem_append.mpr (Or.inr h)
  rwa [List.takeWhile_append_dropWhile] at this

theorem mem_pyRStrip (c : Char) (l : List Char) (h : c ∈ pyRStrip l) : c ∈ l := by
  have : c ∈ pyRStrip l ++ (l.reverse.takeWhile isPySpace).reverse :=
    List.mem_append.mpr (Or.inl h)
  rwa [pyRStrip_append_eq] at this

theorem mem_pyStrip (c : Char) (l : List Char) (h : c ∈ pyStrip l) : c ∈ l :=
  mem_pyLStrip c l (mem_pyRStrip c (pyLStrip l) h)

/-! Passthrough toolkit: inputs containing neither a left angle bracket
nor an ampersand tokenize to plain text, build a forest of bare text
nodes, are untouched by the four replacement passes, and flatten back
to themselves; on them html_to_markdown is just collapse plus strip. -/

/-- A character that can start neither a tag nor an entity. -/
def noMarkupChar (c : Char) : Bool := !(c = '<' || c = '&')

/-- A character that is not an angle bracket and not an ampersand. -/
def noAngleAmpChar (c : Char) : Bool := !(c = '<' || c = '>' || c = '&')

theorem tokenizeGo_clean (l : List Char) :
    ∀ fuel, l.length < fuel → (∀ c ∈ l, noMarkupChar c = true) →
      tokenizeGo fuel l = l.map (fun c => Tok.text [c]) := by
  induction l with
  | nil =>
    intro fuel hf _
    match fuel with
    | f + 1 => rfl
  | cons c l ih =>
    intro fuel hf hc
    match fuel with
    | f + 1 =>
      have hcc : noMarkupChar c = true := hc c (List.mem_cons_self c l)
      simp only [noMarkupChar, Bool.not_eq_true', Bool.or_eq_false_iff,
        decide_eq_false_iff_not] at hcc
      simp only [tokenizeGo, if_neg hcc.1, if_neg hcc.2, List.map_cons,
        List.cons.injEq, true_and]
      exact ih f (by simpa using Nat.lt_of_succ_lt_succ hf)
        (fun d hd => hc d (List.mem_cons_of_mem c hd))

theorem tokenize_clean (l : List Char) (hc : ∀ c ∈ l, noMarkupChar c = true) :
    tokenize l = l.map (fun c => Tok.text [c]) :=
  tokenizeGo_clean l (l.length + 1) (by omega) hc

theorem bfGo_texts (l : List Char) :
    ∀ acc, bfGo (l.map (fun c => Tok.text [c])) acc [] =
      acc.reverse ++ l.map (fun c => Html.text [c]) := by
  induction l with
  | nil => intro acc; simp [bfGo, closeAll]
  | cons c l ih =>
    intro acc
    simp only [List.map_cons, bfGo]
    rw [ih (Html.text [c] :: acc)]
    simp

theorem buildForest_texts (l : List Char) :
    buildForest (l.map (fun c => Tok.text [c])) = l.map (fun c => Html.text [c]) := by
  unfold buildForest
  rw [bfGo_texts l []]
  rfl

theorem replaceNode_text (tag : List Char)
    (render : List (List Char × List Char) → List Char → List Char)
    (s : List Char) : replaceNode tag render (Html.text s) = Html.text s := rfl

theorem map_replaceNode_texts (tag : List Char)
    (render : List (List Char × List Char) → List Char → List Char)
    (l : List Char) :
    (l.map (fun c => Html.text [c])).map (replaceNode tag render) =
      l.map (fun c => Html.text [c]) := by
  rw [List.map_map]
  exact List.map_congr_left (fun c _ => rfl)

theorem getText_texts (l : List Char) :
    ((l.map (fun c => Html.text [c])).map getText).flatten = l := by
  induction l with
  | nil => rfl
  | cons c l ih =>
    simp only [List.map_cons, List.flatten_cons]
    rw [ih]
    rfl

theorem html_to_markdown_clean (x : List Char)
    (hc : ∀ c ∈ x, noMarkupChar c = true) :
    html_to_markdown x = pyStrip (collapseNewlines x) := by
  rcases eq_or_ne x [] with rfl | hx
  · rfl
  · unfold html_to_markdown
    rw [if_neg hx]
    simp only [tokenize_clean x hc, buildForest_texts, map_replaceNode_texts,
      getText_texts]

/-! Definitions following the specification's words, for the
refinement-style claims; each is compared against the definitions
translated from the source. -/

/-- Spec side: the meeting title, defaulting to Untitled Meeting when
absent or empty. -/
def specResolvedTitle (title : Option (List Char)) : List Char :=
  match title with
  | none => str "Untitled Meeting"
  | some s => if s = [] then str "Untitled Meeting" else s

/-- Spec side: heading-2 text block with the meeting title. -/
def specHeadingBlock (title : Option (List Char)) : Block :=
  Block.mk (str "text") (some (str "h2")) (specResolvedTitle title) none

/-- Spec side: plain text block with the summary content. -/
def specSummaryBlock (summaryMarkdown : List Char) : Block :=
  Block.mk (str "text") none summaryMarkdown none

/-- Spec side: page block titled Full Transcript containing exactly one
nested text block with the (possibly truncated) transcript content. -/
def specTranscriptPageBlock (transcriptMarkdown : List Char) : Block :=
  Block.mk (str "page") (some (str "card")) (str "📄 Full Transcript")
    (some [Block.mk (str "text") none (truncateTranscript transcriptMarkdown) none])

/-- Spec side: plain text block containing only the separator. -/
def specSeparatorBlock : Block := Block.mk (str "text") none (str "---") none

/-- Spec side: the contribution of one transcript segment per the
claim: glyph by source, then the trimmed text, then two newlines;
segments whose trimmed text is empty contribute nothing. -/
def specSegmentText (seg : Segment) : List Char :=
  let trimmed := pyStrip (seg.text.getD [])
  if trimmed = [] then []
  else
    (if seg.source.getD (str "unknown") = str "microphone" then str "🎙️ "
     else str "💻 ") ++ trimmed ++ str "\n\n"

/-- Spec side: the formatted transcript of a non-empty segment list:
the concatenation of the per-segment contributions in input order, with
trailing whitespace trimmed. -/
def specTranscript (segs : List Segment) : List Char :=
  pyRStrip ((segs.map specSegmentText).flatten)

/-- Spec side: one submission per meeting, in filtered order. -/
def specMeetingSubmission (gp : List Char → List Panel)
    (gt : List Char → Option (List Segment)) (y : PyDate) (doc : Meeting) :
    Submission :=
  ⟨meetingBlocksOf gp gt doc, y.isoformat⟩

/-! Small helpers about the transcript formatter, the block builder and
the orchestration loop. -/

theorem formatLoop_eq (segs : List Segment) :
    ∀ acc, formatLoop acc segs = acc ++ (segs.map segPart).flatten := by
  induction segs with
  | nil => intro acc; simp [formatLoop]
  | cons seg rest ih =>
    intro acc
    simp only [formatLoop, List.map_cons, List.flatten_cons, ih,
      List.append_assoc]

theorem segPart_headOk (seg : Segment) : headOk (segPart seg) := by
  unfold headOk
  simp only [segPart]
  split
  · exact Or.inl rfl
  · split
    · exact Or.inr ⟨'🎙', _, rfl, by decide⟩
    · exact Or.inr ⟨'💻', _, rfl, by decide⟩

theorem flatten_parts_headOk (parts : List (List Char))
    (h : ∀ x ∈ parts, headOk x) : headOk parts.flatten := by
  induction parts with
  | nil => exact Or.inl rfl
  | cons p rest ih =>
    rcases h p (List.mem_cons_self p rest) with hp | ⟨c, r, hc, hcs⟩
    · rw [List.flatten_cons, hp, List.nil_append]
      exact ih (fun x hx => h x (List.mem_cons_of_mem p hx))
    · rw [List.flatten_cons, hc]
      exact Or.inr ⟨c, r ++ rest.flatten, rfl, hcs⟩

theorem buildMeetingBlocks_length (t : Option (List Char)) (s tr : List Char) :
    (buildMeetingBlocks t s tr).length = 4 := rfl

theorem buildMeetingBlocks_get2 (t : Option (List Char)) (s tr : List Char) :
    (buildMeetingBlocks t s tr).get? 2 =
      some (Block.mk (str "page") (some (str "card")) (str "📄 Full Transcript")
        (some [Block.mk (str "text") none
          (if tr.length < 50000 then tr else tr.take 50000 ++ truncationSuffix)
          none])) := rfl

theorem mainRunGo_map_fst (gp : List Char → List Panel)
    (gt : List Char → Option (List Segment)) (y : PyDate) (o : Nat → Bool)
    (l : List Meeting) :
    ∀ i, (mainRunGo gp gt y o l i).map Prod.fst =
      l.map (specMeetingSubmission gp gt y) := by
  induction l with
  | nil => intro i; rfl
  | cons doc rest ih =>
    intro i
    simp only [mainRunGo, List.map_cons, ih (i + 1)]
    rfl

/-! The claims. -/

/-- C1, amended: for the transcript page block built per meeting, a
transcript markdown whose length is at least 50000 characters —
including exactly 50000 — yields a nested text block holding the first
50000 characters followed by the truncation suffix; only lengths
strictly below 50000 are kept unchanged.  (The claim as stated, that a
length of exactly 50000 is not truncated, is refuted by
C1_counterexample: the source tests length < 50000.) -/
theorem C1_transcript_truncation (t : Option (List Char)) (s tr : List Char)
    (h : 50000 ≤ tr.length) :
    (buildMeetingBlocks t s tr).get? 2 =
      some (Block.mk (str "page") (some (str "card")) (str "📄 Full Transcript")
        (some [Block.mk (str "text") none (tr.take 50000 ++ truncationSuffix)
          none])) := by
  rw [buildMeetingBlocks_get2, if_neg (by omega)]

/-- C1, witness: a transcript of exactly 50000 characters satisfies the
hypothesis and is truncated with the suffix appended. -/
theorem C1_transcript_truncation_witness :
    50000 ≤ (List.replicate 50000 'a').length ∧
      (buildMeetingBlocks none [] (List.replicate 50000 'a')).get? 2 =
        some (Block.mk (str "page") (some (str "card")) (str "📄 Full Transcript")
          (some [Block.mk (str "text") none
            ((List.replicate 50000 'a').take 50000 ++ truncationSuffix) none])) :=
  ⟨le_of_eq (List.length_replicate 50000 'a').symm,
    C1_transcript_truncation none [] (List.replicate 50000 'a')
      (le_of_eq (List.length_replicate 50000 'a').symm)⟩

/-- C1, counterexample to the claim as stated: a transcript markdown of
exactly 50000 characters does NOT appear unchanged in the nested text
block — the truncation suffix is appended to it. -/
theorem C1_counterexample :
    ¬ ((buildMeetingBlocks none [] (List.replicate 50000 'a')).get? 2 =
      some (Block.mk (str "page") (some (str "card")) (str "📄 Full Transcript")
        (some [Block.mk (str "text") none (List.replicate 50000 'a') none]))) := by
  rw [buildMeetingBlocks_get2, if_neg (by simp only [List.length_replicate]; omega)]
  intro h
  simp only [Option.some.injEq, Block.mk.injEq, List.cons.injEq, and_true,
    true_and] at h
  have hlen := congrArg List.length h
  simp only [List.length_append, List.length_take, List.length_replicate,
    Nat.min_self] at hlen
  have hts : 0 < truncationSuffix.length := by decide
  omega

/-- C2, amended: the per-meeting summary markdown equals the
HTML-to-markdown conversion of the original_content of the first panel
titled exactly Summary when that content is a non-empty string, and
equals the literal placeholder when no Summary panel exists or when the
first Summary panel's original_content is empty or absent.  (The claim
as stated is refuted by C2_counterexample: an existing Summary panel
with empty content also produces the placeholder, because the source
tests the truthiness of the extracted string, not the panel's
presence.) -/
theorem C2_summary_selection (panels : List Panel) :
    content_md panels =
      match panels.find? (fun p => decide (p.title = some (str "Summary"))) with
      | some p =>
        if p.original_content.getD [] = [] then str "No summary available."
        else html_to_markdown (p.original_content.getD [])
      | none => str "No summary available." := by
  induction panels with
  | nil => rfl
  | cons p rest ih =>
    by_cases hp : p.title = some (str "Summary")
    · simp [content_md, summary_html, hp, List.find?_cons]
    · have h1 : summary_html (p :: rest) = summary_html rest := by
        simp [summary_html, hp]
      have h2 : content_md (p :: rest) = content_md rest := by
        unfold content_md
        rw [h1]
      have h3 : (p :: rest).find?
            (fun q => decide (q.title = some (str "Summary"))) =
          rest.find? (fun q => decide (q.title = some (str "Summary"))) := by
        simp [List.find?_cons, hp]
      rw [h2, ih, h3]

/-- C2, counterexample to the claim as stated: with a single Summary
panel whose original_content is the empty string, a Summary panel
exists (fourth conjunct) and the conversion of its content is the empty
string (second conjunct), yet the summary markdown is the placeholder
(first conjunct), which differs from that conversion (third
conjunct). -/
theorem C2_counterexample :
    content_md [⟨some (str "Summary"), some []⟩] = str "No summary available." ∧
    html_to_markdown [] = [] ∧
    str "No summary available." ≠ [] ∧
    ([⟨some (str "Summary"), some []⟩] : List Panel).find?
        (fun p => decide (p.title = some (str "Summary"))) =
      some ⟨some (str "Summary"), some []⟩ :=
  ⟨rfl, rfl, by decide, rfl⟩

/-- C3, amended: when the session cookie is absent from the
environment, header construction raises AttributeError inside the
fetch's try block, the exception is caught, and the fetch returns the
degraded empty list whatever the network would have answered; the
program proceeds rather than failing at startup.  (The claim as stated
— fail immediately at startup, no degraded empty fetch result — is
refuted by C3_counterexample.) -/
theorem C3_missing_credential (d w : Option (List Char)) (v : List Char)
    (http : List (List Char × Option (List Char)) → Except HttpErr (List Meeting)) :
    get_granola_documents none d w v http = [] := rfl

/-- C3, counterexample to the claim as stated: with the cookie unset,
header construction raises (first conjunct), yet the document fetch
completes and returns the degraded empty result even though the server
would have delivered a meeting (second conjunct) — the program does not
fail at startup. -/
theorem C3_counterexample :
    get_headers none none none (str "6.462.1") =
      Except.error PyErr.attributeError ∧
    get_granola_documents none none none (str "6.462.1")
      (fun _ => Except.ok [⟨str "1", some (str "Standup"),
        some (str "2025-10-11T09:00:00Z")⟩]) = [] :=
  ⟨rfl, rfl⟩

/-- C4, amended: submitting an empty block list is a no-op performing
no HTTP request, but it returns None (the bare Python return), a falsy
value — not the boolean True.  (The claim as stated, that it returns
True, is refuted by C4_counterexample.) -/
theorem C4_empty_blocks (http : Except HttpErr Unit) :
    send_blocks_to_craft [] http = (none, false) := rfl

/-- C4, counterexample to the claim as stated: the empty-list call
performs no request and returns None, which is not the boolean success
value True. -/
theorem C4_counterexample :
    send_blocks_to_craft [] (Except.ok ()) = (none, false) ∧
    (send_blocks_to_craft [] (Except.ok ())).1 ≠ some true :=
  ⟨rfl, by decide⟩

/-- C5, amended: for every input the HTML-to-markdown output contains
no run of three or more consecutive newlines; the absence of literal
angle brackets does not hold in general (character entities decode to
literal angle brackets, see C5_counterexample) but does hold for inputs
containing no angle bracket and no ampersand. -/
theorem C5_output_shape :
    (∀ html, hasTripleNL (html_to_markdown html) = false) ∧
    (∀ html, (∀ c ∈ html, noAngleAmpChar c = true) →
      '<' ∉ html_to_markdown html ∧ '>' ∉ html_to_markdown html) := by
  constructor
  · intro html
    unfold html_to_markdown
    split
    · rfl
    · exact hasTripleNL_pyStrip _ (hasTripleNL_collapseNewlines _)
  · intro html hc
    have hm : ∀ c ∈ html, noMarkupChar c = true := by
      intro c hch
      have h2 := hc c hch
      simp only [noAngleAmpChar, Bool.not_eq_true', Bool.or_eq_false_iff,
        decide_eq_false_iff_not] at h2
      simp only [noMarkupChar, Bool.not_eq_true', Bool.or_eq_false_iff,
        decide_eq_false_iff_not]
      exact ⟨h2.1.1, h2.2⟩
    rw [html_to_markdown_clean html hm]
    constructor
    · intro hmem
      rcases mem_collapseNewlines _ _ (mem_pyStrip _ _ hmem) with h | h
      · exact absurd h (by decide)
      · exact absurd (hc '<' h) (by decide)
    · intro hmem
      rcases mem_collapseNewlines _ _ (mem_pyStrip _ _ hmem) with h | h
      · exact absurd h (by decide)
      · exact absurd (hc '>' h) (by decide)

/-- C5, witness: a concrete clean input satisfying the hypothesis of
the bracket-freedom half. -/
theorem C5_output_shape_witness :
    (∀ c ∈ str "hi", noAngleAmpChar c = true) ∧
      '<' ∉ html_to_markdown (str "hi") :=
  ⟨by decide, (C5_output_shape.2 (str "hi") (by decide)).1⟩

/-- C5, counterexample to the claim as stated: the input consisting of
the lt character entity converts to a literal left angle bracket, so
the output is not free of angle brackets for every input. -/
theorem C5_counterexample : '<' ∈ html_to_markdown (str "&lt;") := by decide

/-- C6, amended: the HTML-to-markdown conversion is idempotent on every
input containing no left angle bracket and no ampersand.  (Full
idempotence as claimed is refuted by C6_counterexample: character
entities decode once per application, so an output containing an
encoded entity converts differently the second time.) -/
theorem C6_idempotence_on_plain (x : List Char)
    (h : ∀ c ∈ x, noMarkupChar c = true) :
    html_to_markdown (html_to_markdown x) = html_to_markdown x := by
  rw [html_to_markdown_clean x h]
  have hy : ∀ c ∈ pyStrip (collapseNewlines x), noMarkupChar c = true := by
    intro c hcm
    rcases mem_collapseNewlines _ _ (mem_pyStrip _ _ hcm) with hc | hc
    · subst hc; decide
    · exact h c hc
  rw [html_to_markdown_clean _ hy]
  have ht : hasTripleNL (pyStrip (collapseNewlines x)) = false :=
    hasTripleNL_pyStrip _ (hasTripleNL_collapseNewlines x)
  rw [collapseNewlines_no_triple_id _ ht, pyStrip_idem]

/-- C6, witness: a concrete input satisfying the hypothesis of the
restricted idempotence theorem. -/
theorem C6_idempotence_witness :
    (∀ c ∈ str "hi", noMarkupChar c = true) ∧
      html_to_markdown (html_to_markdown (str "hi")) = html_to_markdown (str "hi") :=
  ⟨by decide, C6_idempotence_on_plain (str "hi") (by decide)⟩

/-- C6, counterexample to the claim as stated: converting the
double-encoded ampersand entity yields the encoded entity, which a
second conversion decodes again, so convert of convert differs from
convert. -/
theorem C6_counterexample :
    html_to_markdown (html_to_markdown (str "&amp;amp;")) ≠
      html_to_markdown (str "&amp;amp;") := by decide

/-- C7, confirmed: an absent or empty segment sequence formats to the
literal placeholder; a non-empty sequence formats to the concatenation,
in input order, of glyph-prefixed trimmed segment texts each followed
by a blank line (whitespace-only segments contributing nothing) with
trailing whitespace trimmed; and the concrete single-microphone-segment
example formats to the glyph plus text. -/
theorem C7_format_transcript :
    format_transcript none = str "No transcript available." ∧
    format_transcript (some []) = str "No transcript available." ∧
    (∀ segs : List Segment, segs ≠ [] →
      format_transcript (some segs) = specTranscript segs) ∧
    format_transcript (some [⟨some (str "hi"), some (str "microphone")⟩]) =
      str "🎙️ hi" := by
  refine ⟨rfl, rfl, ?_, by decide⟩
  intro segs hs
  simp only [format_transcript]
  rw [if_neg hs, formatLoop_eq segs [], List.nil_append]
  have hparts : headOk ((segs.map segPart).flatten) := by
    apply flatten_parts_headOk
    intro x hx
    obtain ⟨seg, _, rfl⟩ := List.mem_map.mp hx
    exact segPart_headOk seg
  unfold specTranscript
  have hsegeq : segs.map specSegmentText = segs.map segPart := rfl
  rw [hsegeq]
  unfold pyStrip
  rw [pyLStrip_eq_self _ hparts]

/-- C7, witness: the non-empty branch of the theorem applied to the
concrete single-segment list. -/
theorem C7_format_transcript_witness :
    ([(⟨some (str "hi"), some (str "microphone")⟩ : Segment)] ≠ []) ∧
    format_transcript (some [⟨some (str "hi"), some (str "microphone")⟩]) =
      specTranscript [⟨some (str "hi"), some (str "microphone")⟩] :=
  ⟨by decide, C7_format_transcript.2.2.1 _ (by decide)⟩

/-- C8, confirmed: the date filter returns exactly the subsequence of
meetings whose created_at string (empty when absent) has the ISO
rendering of the target date as a prefix — stated both as an equation
with the filter over the spec predicate and as a Sublist fact capturing
order preservation. -/
theorem C8_filter_by_date (docs : List Meeting) (d : PyDate) :
    filter_meetings_by_date docs d =
      docs.filter (fun m => decide (d.isoformat <+: m.created_at.getD [])) ∧
    (filter_meetings_by_date docs d).Sublist docs := by
  constructor
  · unfold filter_meetings_by_date
    refine List.filter_congr ?_
    intro m _
    cases hb : d.isoformat.isPrefixOf (m.created_at.getD []) with
    | false =>
      have hnp : ¬ (d.isoformat <+: m.created_at.getD []) := by
        rw [← List.isPrefixOf_iff_prefix, hb]
        simp
      simp [hnp]
    | true =>
      have hp : d.isoformat <+: m.created_at.getD [] :=
        List.isPrefixOf_iff_prefix.mp hb
      simp [hp]
  · unfold filter_meetings_by_date
    exact List.filter_sublist _

/-- C9, confirmed: for any combination of absent, empty or non-empty
title and any summary and transcript strings, the per-meeting block
group is exactly the four blocks, in fixed order: heading-2 title block
(defaulting to Untitled Meeting), summary text block, transcript page
block with its single nested text block, and the separator block. -/
theorem C9_meeting_block_group (t : Option (List Char)) (s tr : List Char) :
    buildMeetingBlocks t s tr =
      [specHeadingBlock t, specSummaryBlock s, specTranscriptPageBlock tr,
        specSeparatorBlock] ∧
    (buildMeetingBlocks t s tr).length = 4 := by
  refine ⟨?_, buildMeetingBlocks_length t s tr⟩
  cases t <;> rfl

/-- C10, confirmed: in every run selecting at least one meeting, the
submission trace is the header as its own first submission followed by
one submission per filtered meeting in order, each carrying that
meeting's four blocks; and the trace is the same whatever outcomes the
destination reports, so a failed submission never prevents later
ones. -/
theorem C10_submission_order (docs : List Meeting)
    (gp : List Char → List Panel) (gt : List Char → Option (List Segment))
    (y : PyDate) (o o2 : Nat → Bool)
    (h : filter_meetings_by_date docs y ≠ []) :
    ((mainRun docs gp gt y o).map Prod.fst =
      ⟨[headerBlock y], y.isoformat⟩ ::
        (filter_meetings_by_date docs y).map (specMeetingSubmission gp gt y)) ∧
    ((mainRun docs gp gt y o).map Prod.fst =
      (mainRun docs gp gt y o2).map Prod.fst) ∧
    (∀ doc, (meetingBlocksOf gp gt doc).length = 4) := by
  have key : ∀ o3 : Nat → Bool, (mainRun docs gp gt y o3).map Prod.fst =
      ⟨[headerBlock y], y.isoformat⟩ ::
        (filter_meetings_by_date docs y).map (specMeetingSubmission gp gt y) := by
    intro o3
    simp only [mainRun]
    rw [if_neg h]
    simp only [List.map_cons, mainRunGo_map_fst]
  exact ⟨key o, (key o).trans (key o2).symm,
    fun doc => buildMeetingBlocks_length _ _ _⟩

/-- C10, witness: a concrete run with one matching meeting, evaluated
hypothesis, and the trace equation delivered by the theorem. -/
theorem C10_submission_order_witness :
    (filter_meetings_by_date
        [⟨str "1", some (str "T"), some (str "2025-10-11T09:00:00Z")⟩]
        ⟨2025, 10, 11⟩ ≠ []) ∧
    ((mainRun [⟨str "1", some (str "T"), some (str "2025-10-11T09:00:00Z")⟩]
        (fun _ => []) (fun _ => none) ⟨2025, 10, 11⟩ (fun _ => true)).map Prod.fst =
      ⟨[headerBlock ⟨2025, 10, 11⟩], PyDate.isoformat ⟨2025, 10, 11⟩⟩ ::
        (filter_meetings_by_date
            [⟨str "1", some (str "T"), some (str "2025-10-11T09:00:00Z")⟩]
            ⟨2025, 10, 11⟩).map
          (specMeetingSubmission (fun _ => []) (fun _ => none) ⟨2025, 10, 11⟩)) :=
  ⟨by decide,
    (C10_submission_order _ _ _ _ (fun _ => true) (fun _ => false) (by decide)).1⟩

end GranolaCraft
